import Mathlib

/-!
Verification of the filter/aggregate core of `Student_Dashboard1.py`
(a Streamlit dashboard over a table of student records).

The dashboard's data rows carry five categorical (string) columns and six
numeric columns.  Per the data model, `math score`, `reading score`,
`writing score` and `Attendance` are integers while `StudyHours` and
`avg_Score` are floats; we embed the integer columns as `Int` and the
float columns as `ℚ` (exact rationals: the comparisons and means the
claims touch are exact in the value ranges involved; where a property
genuinely hinges on IEEE-754 rounding — the definedness boundary of the
correlation — the embedding does not decide it, see `corr`).
-/

namespace StudentDashboard

/-- One row of the loaded dataframe.  Field names transliterate the CSV
column names `gender`, `race/ethnicity`, `parental level of education`,
`lunch`, `test preparation course`, `math score`, `reading score`,
`writing score`, `Attendance`, `StudyHours`, `avg_Score`. -/
structure Record where
  gender : String
  race_ethnicity : String
  parental_education : String
  lunch : String
  test_preparation : String
  math_score : Int
  reading_score : Int
  writing_score : Int
  attendance : Int
  studyHours : ℚ
  avg_Score : ℚ
deriving DecidableEq, Repr

/-- The filter widget state: one selectbox value per categorical column
(`'All'` is the wildcard) and the numeric bounds from the number inputs
(`attendance_min/max`, `study_hours_min/max`, `math/reading/writing
min/max`, `avg_score_min`). -/
structure FilterSpec where
  gender_filter : String
  race_filter : String
  education_filter : String
  lunch_filter : String
  prep_filter : String
  attendance_min : Int
  attendance_max : Int
  study_hours_min : ℚ
  study_hours_max : ℚ
  math_min : Int
  math_max : Int
  reading_min : Int
  reading_max : Int
  writing_min : Int
  writing_max : Int
  avg_score_min : ℚ
deriving DecidableEq, Repr

/-- The numeric-range mask of lines 149-161: one boolean conjunction over
the six numeric columns (`avg_Score` has a lower bound only). -/
def numeric_mask (s : FilterSpec) (r : Record) : Bool :=
  decide (s.math_min ≤ r.math_score) && decide (r.math_score ≤ s.math_max) &&
  decide (s.reading_min ≤ r.reading_score) && decide (r.reading_score ≤ s.reading_max) &&
  decide (s.writing_min ≤ r.writing_score) && decide (r.writing_score ≤ s.writing_max) &&
  decide (s.attendance_min ≤ r.attendance) && decide (r.attendance ≤ s.attendance_max) &&
  decide (s.study_hours_min ≤ r.studyHours) && decide (r.studyHours ≤ s.study_hours_max) &&
  decide (s.avg_score_min ≤ r.avg_Score)

/-- Lines 132-161: `filtered_df = df.copy()`, five conditional categorical
equality filters (each skipped when its selectbox reads `'All'`), then the
single numeric boolean-mask selection.  A pandas boolean-mask selection
keeps the surviving rows in order, which is `List.filter`. -/
def apply_filters (df : List Record) (s : FilterSpec) : List Record :=
  let fd := df
  let fd := if s.gender_filter ≠ "All" then
      fd.filter (fun r => r.gender == s.gender_filter) else fd
  let fd := if s.race_filter ≠ "All" then
      fd.filter (fun r => r.race_ethnicity == s.race_filter) else fd
  let fd := if s.education_filter ≠ "All" then
      fd.filter (fun r => r.parental_education == s.education_filter) else fd
  let fd := if s.lunch_filter ≠ "All" then
      fd.filter (fun r => r.lunch == s.lunch_filter) else fd
  let fd := if s.prep_filter ≠ "All" then
      fd.filter (fun r => r.test_preparation == s.prep_filter) else fd
  fd.filter (numeric_mask s)

/-- The row predicate the whole filter chain amounts to: each categorical
column passes when its selectbox is the wildcard or matches exactly, and
every numeric bound holds; all conjoined. -/
def row_matches (s : FilterSpec) (r : Record) : Bool :=
  (s.gender_filter == "All" || r.gender == s.gender_filter) &&
  (s.race_filter == "All" || r.race_ethnicity == s.race_filter) &&
  (s.education_filter == "All" || r.parental_education == s.education_filter) &&
  (s.lunch_filter == "All" || r.lunch == s.lunch_filter) &&
  (s.prep_filter == "All" || r.test_preparation == s.prep_filter) &&
  numeric_mask s r

/-- The claim-side reading of one row surviving every filter: each
categorical selectbox is the wildcard `"All"` or matches the row's value
exactly (case-sensitive string equality), every numeric column lies within
its inclusive `[min, max]` bounds, the average score is at least
`avg_score_min` (no upper bound), all conjoined. -/
def RowMatchesP (s : FilterSpec) (r : Record) : Prop :=
  (s.gender_filter = "All" ∨ r.gender = s.gender_filter) ∧
  (s.race_filter = "All" ∨ r.race_ethnicity = s.race_filter) ∧
  (s.education_filter = "All" ∨ r.parental_education = s.education_filter) ∧
  (s.lunch_filter = "All" ∨ r.lunch = s.lunch_filter) ∧
  (s.prep_filter = "All" ∨ r.test_preparation = s.prep_filter) ∧
  s.math_min ≤ r.math_score ∧ r.math_score ≤ s.math_max ∧
  s.reading_min ≤ r.reading_score ∧ r.reading_score ≤ s.reading_max ∧
  s.writing_min ≤ r.writing_score ∧ r.writing_score ≤ s.writing_max ∧
  s.attendance_min ≤ r.attendance ∧ r.attendance ≤ s.attendance_max ∧
  s.study_hours_min ≤ r.studyHours ∧ r.studyHours ≤ s.study_hours_max ∧
  s.avg_score_min ≤ r.avg_Score

/-- The Dataset invariant of the data model: every numeric column lies in
its domain (subject scores 0-100, attendance 0-10, study hours 0-12,
average score 0-100). -/
def InDomain (r : Record) : Prop :=
  0 ≤ r.math_score ∧ r.math_score ≤ 100 ∧
  0 ≤ r.reading_score ∧ r.reading_score ≤ 100 ∧
  0 ≤ r.writing_score ∧ r.writing_score ≤ 100 ∧
  0 ≤ r.attendance ∧ r.attendance ≤ 10 ∧
  0 ≤ r.studyHours ∧ r.studyHours ≤ 12 ∧
  0 ≤ r.avg_Score ∧ r.avg_Score ≤ 100

instance (r : Record) : Decidable (InDomain r) := by
  unfold InDomain; infer_instance

/-- A wildcard-only filter state: every selectbox reads `"All"` and every
numeric bound spans its column's full domain (`avg_score_min` at its
minimum `0`). -/
def IsWildcard (s : FilterSpec) : Prop :=
  s.gender_filter = "All" ∧ s.race_filter = "All" ∧
  s.education_filter = "All" ∧ s.lunch_filter = "All" ∧
  s.prep_filter = "All" ∧
  s.attendance_min = 0 ∧ s.attendance_max = 10 ∧
  s.study_hours_min = 0 ∧ s.study_hours_max = 12 ∧
  s.math_min = 0 ∧ s.math_max = 100 ∧
  s.reading_min = 0 ∧ s.reading_max = 100 ∧
  s.writing_min = 0 ∧ s.writing_max = 100 ∧
  s.avg_score_min = 0

instance (s : FilterSpec) : Decidable (IsWildcard s) := by
  unfold IsWildcard; infer_instance

/-- `s'` narrows `s`: each categorical selectbox is unchanged or moved off
the wildcard to a concrete category, every numeric lower bound is raised
or kept, every upper bound is lowered or kept. -/
def SpecStricter (s s' : FilterSpec) : Prop :=
  (s'.gender_filter = s.gender_filter ∨ s.gender_filter = "All") ∧
  (s'.race_filter = s.race_filter ∨ s.race_filter = "All") ∧
  (s'.education_filter = s.education_filter ∨ s.education_filter = "All") ∧
  (s'.lunch_filter = s.lunch_filter ∨ s.lunch_filter = "All") ∧
  (s'.prep_filter = s.prep_filter ∨ s.prep_filter = "All") ∧
  s.math_min ≤ s'.math_min ∧ s'.math_max ≤ s.math_max ∧
  s.reading_min ≤ s'.reading_min ∧ s'.reading_max ≤ s.reading_max ∧
  s.writing_min ≤ s'.writing_min ∧ s'.writing_max ≤ s.writing_max ∧
  s.attendance_min ≤ s'.attendance_min ∧ s'.attendance_max ≤ s.attendance_max ∧
  s.study_hours_min ≤ s'.study_hours_min ∧ s'.study_hours_max ≤ s.study_hours_max ∧
  s.avg_score_min ≤ s'.avg_score_min

instance (s s' : FilterSpec) : Decidable (SpecStricter s s') := by
  unfold SpecStricter; infer_instance

/-- The script's dataframe variables: `df` as loaded, and the derived
`filtered_df`. -/
structure AppState where
  df : List Record
  filtered_df : List Record
deriving DecidableEq, Repr

/-- Lines 132-161 as a state transformation: `filtered_df` is reassigned
from `df.copy()` through the filter chain; `df` is never assigned. -/
def run_filters (st : AppState) (s : FilterSpec) : AppState :=
  { st with filtered_df := apply_filters st.df s }

/-- `math score` column read as a rational (pandas does the comparison and
the correlation arithmetic in float). -/
def mathQ (r : Record) : ℚ := r.math_score

/-- `reading score` column as a rational. -/
def readingQ (r : Record) : ℚ := r.reading_score

/-- `Attendance` column as a rational. -/
def attendQ (r : Record) : ℚ := r.attendance

/-- `StudyHours` column. -/
def studyQ (r : Record) : ℚ := r.studyHours

/-- `avg_Score` column. -/
def avgQ (r : Record) : ℚ := r.avg_Score

/-- Sum of a numeric column over the view. -/
def colSum (view : List Record) (f : Record → ℚ) : ℚ :=
  (view.map f).sum

/-- `Series.mean` of a numeric column of the view. -/
def colMean (view : List Record) (f : Record → ℚ) : ℚ :=
  colSum view f / view.length

/-- Sum of products of deviations from the column means: the shared
kernel of covariance and variance (`devSum v f f` is `n` times the
population variance of column `f`). -/
def devSum (view : List Record) (f g : Record → ℚ) : ℚ :=
  (view.map (fun r => (f r - colMean view f) * (g r - colMean view g))).sum

/-- `Series.corr` of two columns of the view (lines 406, 410, 414),
in exact rational arithmetic: `none` (the `NaN` sentinel) when a
deviation sum vanishes, else `some (Sxy, Sxx·Syy)`, the numerator and
squared denominator of the Pearson coefficient `Sxy / √(Sxx·Syy)`.
pandas computes in float64, where the sentinel appears exactly when the
computed denominator vanishes; rounding can make the computed variance
of a constant column nonzero (an inexactly-representable mean), so this
exact model idealizes the program's definedness boundary — bounds on a
defined coefficient are robust to that idealization, its definedness
domain is not. -/
def corr (view : List Record) (f g : Record → ℚ) : Option (ℚ × ℚ) :=
  if devSum view f f = 0 ∨ devSum view g g = 0 then none
  else some (devSum view f g, devSum view f f * devSum view g g)

/-- The aggregate output of the results section: record count, the column
means of the metric cards (lines 168-198), and the three fixed
correlations of lines 405-415. -/
structure Summary where
  count : Nat
  avg_math : ℚ
  avg_reading : ℚ
  avg_study : ℚ
  avg_attendance : ℚ
  corr_study_avg : Option (ℚ × ℚ)
  corr_attend_avg : Option (ℚ × ℚ)
  corr_math_read : Option (ℚ × ℚ)
deriving DecidableEq, Repr

/-- The statistics computed inside the `len(filtered_df) > 0` branch. -/
def summarize (view : List Record) : Summary where
  count := view.length
  avg_math := colMean view mathQ
  avg_reading := colMean view readingQ
  avg_study := colMean view studyQ
  avg_attendance := colMean view attendQ
  corr_study_avg := corr view studyQ avgQ
  corr_attend_avg := corr view attendQ avgQ
  corr_math_read := corr view mathQ readingQ

/-- The branch at lines 164/417: with a non-empty view the results
section (with its Summary) is rendered, otherwise the "no students match"
message (`none`) and no statistics are computed. -/
def render_output (view : List Record) : Option Summary :=
  if 0 < view.length then some (summarize view) else none

/-- A sample in-domain record for concrete instantiations. -/
def sampleRecord : Record where
  gender := "female"
  race_ethnicity := "group B"
  parental_education := "bachelor's degree"
  lunch := "standard"
  test_preparation := "none"
  math_score := 72
  reading_score := 72
  writing_score := 74
  attendance := 8
  studyHours := 6
  avg_Score := 72

/-- A second sample record differing on every numeric column. -/
def sampleRecord2 : Record where
  gender := "male"
  race_ethnicity := "group A"
  parental_education := "some college"
  lunch := "free/reduced"
  test_preparation := "completed"
  math_score := 40
  reading_score := 43
  writing_score := 39
  attendance := 5
  studyHours := 2
  avg_Score := 40

/-- The wildcard filter state: the widgets' default values. -/
def wildcardSpec : FilterSpec where
  gender_filter := "All"
  race_filter := "All"
  education_filter := "All"
  lunch_filter := "All"
  prep_filter := "All"
  attendance_min := 0
  attendance_max := 10
  study_hours_min := 0
  study_hours_max := 12
  math_min := 0
  math_max := 100
  reading_min := 0
  reading_max := 100
  writing_min := 0
  writing_max := 100
  avg_score_min := 0

/-! ### The CSV layer

`to_csv`/`read_csv` round trips (claim C4) and the load pipeline (claim
C2) concern the textual table format.  We model a materialized table as
typed cells — strings, integers, floats (a decimal mantissa and the
count of digits after the point, the information a float's decimal
rendering carries; for extreme magnitudes Python's `repr` would switch
to exponent form, which changes the text but not the round-tripped
value), booleans, infinities and the NA marker.  The writer is modelled
with Python csv's `QUOTE_MINIMAL` quoting, so fields containing
delimiters, quotes or line breaks are transported verbatim; the reader
scans quoted and unquoted fields, skips blank lines
(`skip_blank_lines=True`), and re-types each field the way `read_csv`'s
dtype inference does: NA markers and boolean tokens (matched exactly,
pandas' default sets), then integer, infinity and float tokens (plain or
scientific notation; the numeric converters skip whitespace around the
token).  Inference is modelled per cell; pandas infers per column, which
coincides on every view whose columns are homogeneous — true of the
student table's schema. -/

/-- A typed CSV cell: the dtypes `read_csv` can produce. -/
inductive Value where
  | vstr (s : String)
  | vint (i : Int)
  | vfloat (m : Int) (e : Nat)
  | vbool (b : Bool)
  | vinf (neg : Bool)
  | vnan
deriving DecidableEq, Repr

/-- A materialized dataframe: column names and rows of typed cells. -/
structure CsvTable where
  header : List String
  rows : List (List Value)
deriving DecidableEq, Repr

/-- The decimal digit character of `d < 10`. -/
def digitChar (d : Nat) : Char := Char.ofNat (48 + d)

/-- The digit value of a digit character. -/
def charDigit (c : Char) : Nat := c.toNat - 48

/-- Decimal digit characters `'0'`-`'9'`. -/
def isDigitChar (c : Char) : Bool := 48 ≤ c.toNat && c.toNat ≤ 57

/-- Big-endian decimal digits of a natural number; `fuel` bounds the
recursion depth (any `fuel > n` gives the digits of `n`). -/
def natDigitsAux (fuel : Nat) (n : Nat) : List Char :=
  match fuel with
  | 0 => []
  | fuel + 1 =>
    if n < 10 then [digitChar n]
    else natDigitsAux fuel (n / 10) ++ [digitChar (n % 10)]

/-- Big-endian decimal digits of a natural number. -/
def natDigits (n : Nat) : List Char := natDigitsAux (n + 1) n

/-- Value of a big-endian digit string. -/
def digitsToNat (cs : List Char) : Nat :=
  cs.foldl (fun a c => 10 * a + charDigit c) 0

/-- Decimal rendering of an integer, `'-'`-prefixed when negative. -/
def intChars (i : Int) : List Char :=
  if i < 0 then '-' :: natDigits i.natAbs else natDigits i.natAbs

/-- Digits of `|m|`, zero-padded on the left to more than `e` digits. -/
def paddedDigits (m : Int) (e : Nat) : List Char :=
  List.replicate (e + 1 - (natDigits m.natAbs).length) '0' ++ natDigits m.natAbs

/-- Decimal rendering of the float `m / 10^e`: the digits of `|m|`,
zero-padded to more than `e` digits, with the point inserted before the
last `e` of them, `'-'`-prefixed when negative (`repr`-style, e.g.
`(725, 1) ↦ "72.5"`, `(5, 2) ↦ "0.05"`, `(720, 1) ↦ "72.0"`). -/
def floatChars (m : Int) (e : Nat) : List Char :=
  let ds := paddedDigits m e
  let body := ds.take (ds.length - e) ++ '.' :: ds.drop (ds.length - e)
  if m < 0 then '-' :: body else body

/-- Space or tab: what the reader's numeric converters skip around a
token. -/
def isWsChar (c : Char) : Bool := c = ' ' || c = '\t'

/-- Strip leading and trailing spaces and tabs. -/
def trimWs (cs : List Char) : List Char :=
  ((cs.dropWhile isWsChar).reverse.dropWhile isWsChar).reverse

/-- Strip one leading sign; `true` means a minus was present. -/
def stripSign (cs : List Char) : Bool × List Char :=
  match cs with
  | [] => (false, [])
  | c :: rest =>
    if c = '-' then (true, rest)
    else if c = '+' then (false, rest)
    else (false, c :: rest)

/-- The characters numeric renderings are made of. -/
def numeric_chars (cs : List Char) : Bool :=
  cs.all (fun c => isDigitChar c || c = '-' || c = '+' || c = '.')

/-- pandas' default NA markers (`io.parsers.STR_NA_VALUES`). -/
def na_tokens : List String :=
  ["", "#N/A", "#N/A N/A", "#NA", "-1.#IND", "-1.#QNAN", "-NaN", "-nan",
   "1.#IND", "1.#QNAN", "<NA>", "N/A", "NA", "NULL", "NaN", "None",
   "n/a", "nan", "null"]

/-- Is the field an NA marker (matched exactly)? -/
def is_na_token (cs : List Char) : Bool :=
  na_tokens.any (fun s => s.data == cs)

/-- The reader's true tokens. -/
def true_tokens : List String := ["True", "TRUE", "true"]

/-- The reader's false tokens. -/
def false_tokens : List String := ["False", "FALSE", "false"]

/-- Is the field a boolean true token? -/
def is_true_token (cs : List Char) : Bool :=
  true_tokens.any (fun s => s.data == cs)

/-- Is the field a boolean false token? -/
def is_false_token (cs : List Char) : Bool :=
  false_tokens.any (fun s => s.data == cs)

/-- An integer token: optional sign, then one or more digits. -/
def is_int_cell (cs : List Char) : Bool :=
  (!(stripSign cs).2.isEmpty) && (stripSign cs).2.all isDigitChar

/-- Integer value of an integer token. -/
def int_of_chars (cs : List Char) : Int :=
  if (stripSign cs).1 then -(digitsToNat (stripSign cs).2 : Int)
  else (digitsToNat (stripSign cs).2 : Int)

/-- Infinity spellings the reader's float converter accepts after the
sign. -/
def inf_tokens : List String :=
  ["inf", "Inf", "INF", "infinity", "Infinity", "INFINITY"]

/-- Is the field an infinity token (optionally signed)? -/
def is_inf_cell (cs : List Char) : Bool :=
  inf_tokens.any (fun s => s.data == (stripSign cs).2)

/-- Split a character list at every occurrence of `sep` (the separator is
consumed; `n` separators yield `n + 1` parts). -/
def splitOnChar (sep : Char) : List Char → List (List Char)
  | [] => [[]]
  | c :: cs =>
    if c = sep then [] :: splitOnChar sep cs
    else
      match splitOnChar sep cs with
      | [] => [[c]]
      | t :: ts => (c :: t) :: ts

/-- Split at the first exponent marker `e`/`E`, if any. -/
def splitOnExp : List Char → List Char × Option (List Char)
  | [] => ([], none)
  | c :: rest =>
    if c = 'e' ∨ c = 'E' then ([], some rest)
    else ((c :: (splitOnExp rest).1), (splitOnExp rest).2)

/-- An unsigned mantissa: digits with at most one point and at least one
digit (`12`, `12.5`, `12.`, `.5`). -/
def is_mantissa (cs : List Char) : Bool :=
  match splitOnChar '.' cs with
  | [a] => (!a.isEmpty) && a.all isDigitChar
  | [a, b] => a.all isDigitChar && b.all isDigitChar &&
      ((!a.isEmpty) || (!b.isEmpty))
  | _ => false

/-- Mantissa digits read around the point: `(m, e)` with value
`m / 10^e`. -/
def mantissa_of_chars (cs : List Char) : Nat × Nat :=
  match splitOnChar '.' cs with
  | [a] => (digitsToNat a, 0)
  | [a, b] => (digitsToNat (a ++ b), b.length)
  | _ => (0, 0)

/-- A float token: optional sign, a mantissa, optionally an `e`/`E`
exponent that is itself an integer token (`72.5`, `-0.05`, `5.`, `.5`,
`1e5`, `-1.5E-3`). -/
def is_float_cell (cs : List Char) : Bool :=
  match splitOnExp (stripSign cs).2 with
  | (mant, none) => is_mantissa mant
  | (mant, some ex) => is_mantissa mant && is_int_cell ex

/-- Mantissa and decimal exponent of a float token, the value being
`m / 10^e` (a positive exponent is folded into the mantissa). -/
def float_of_chars (cs : List Char) : Int × Nat :=
  let body := (stripSign cs).2
  let mant := (splitOnExp body).1
  let k : Int :=
    match (splitOnExp body).2 with
    | none => 0
    | some ex => int_of_chars ex
  let sm : Int :=
    if (stripSign cs).1 then -((mantissa_of_chars mant).1 : Int)
    else ((mantissa_of_chars mant).1 : Int)
  if 0 ≤ k then (sm * 10 ^ k.toNat, (mantissa_of_chars mant).2)
  else (sm, (mantissa_of_chars mant).2 + (-k).toNat)

/-- Text of one cell, as `to_csv` writes it (booleans as Python's
`True`/`False`, infinities as `inf`/`-inf`, NA as the empty field). -/
def render_cell : Value → List Char
  | .vstr s => s.data
  | .vint i => intChars i
  | .vfloat m e => floatChars m e
  | .vbool b => if b then "True".data else "False".data
  | .vinf neg => if neg then "-inf".data else "inf".data
  | .vnan => []

/-- Fields the reader re-types instead of keeping as strings: NA
markers, boolean tokens, and (after whitespace-skipping) integer,
infinity and float tokens. -/
def reader_retypes (cs : List Char) : Bool :=
  is_na_token cs || is_true_token cs || is_false_token cs ||
  is_int_cell (trimWs cs) || is_inf_cell (trimWs cs) ||
  is_float_cell (trimWs cs)

/-- One field as `read_csv` types it: NA markers become the missing
value, boolean tokens booleans, integer tokens integers, infinity and
float tokens floats; anything else stays a string. -/
def parse_cell (cs : List Char) : Value :=
  if is_na_token cs then .vnan
  else if is_true_token cs then .vbool true
  else if is_false_token cs then .vbool false
  else if is_int_cell (trimWs cs) then .vint (int_of_chars (trimWs cs))
  else if is_inf_cell (trimWs cs) then .vinf (stripSign (trimWs cs)).1
  else if is_float_cell (trimWs cs) then
    .vfloat (float_of_chars (trimWs cs)).1 (float_of_chars (trimWs cs)).2
  else .vstr ⟨cs⟩

/-- Interpose `sep` between the parts. -/
def joinChars (sep : Char) : List (List Char) → List Char
  | [] => []
  | [c] => c
  | c :: c' :: cs => c ++ sep :: joinChars sep (c' :: cs)

/-- Python csv's `QUOTE_MINIMAL` test, as `to_csv` uses: a field is
quoted iff it contains the delimiter, the quote character or a line
break. -/
def needsQuoting (cs : List Char) : Bool :=
  cs.any (fun c => c = ',' || c = '"' || c = '\n' || c = '\r')

/-- Double every quote character (the csv escape). -/
def escapeQuotes : List Char → List Char
  | [] => []
  | c :: cs =>
    if c = '"' then '"' :: '"' :: escapeQuotes cs
    else c :: escapeQuotes cs

/-- One field as written: quoted and escaped exactly when needed. -/
def quoteCell (cs : List Char) : List Char :=
  if needsQuoting cs then '"' :: (escapeQuotes cs ++ ['"']) else cs

/-- One record as written: quoted fields joined by commas, terminated by
a newline. -/
def render_record (raws : List (List Char)) : List Char :=
  joinChars ',' (raws.map quoteCell) ++ ['\n']

/-- Line 391, `filtered_df.to_csv(index=False)`: the header record then
one record per row. -/
def serialize_table (t : CsvTable) : List Char :=
  ((t.header.map String.data ::
    t.rows.map (fun row => row.map render_cell)).map render_record).flatten

/-- The downloadable byte stream of the filtered view. -/
def to_serialized_table (t : CsvTable) : String :=
  ⟨serialize_table t⟩

/-- Consume a quoted field body up to its closing quote (a doubled quote
decodes to one literal quote); returns the decoded content and the text
after the closing quote. -/
def scanQuoted : List Char → List Char × List Char
  | [] => ([], [])
  | c :: rest =>
    if c = '"' then
      match rest with
      | [] => ([], [])
      | c' :: rest' =>
        if c' = '"' then ('"' :: (scanQuoted rest').1, (scanQuoted rest').2)
        else ([], rest)
    else ((c :: (scanQuoted rest).1), (scanQuoted rest).2)

/-- Consume an unquoted field up to a delimiter or newline. -/
def readUnquoted : List Char → List Char × Option Char × List Char
  | [] => ([], none, [])
  | c :: rest =>
    if c = ',' ∨ c = '\n' then ([], some c, rest)
    else ((c :: (readUnquoted rest).1), (readUnquoted rest).2.1,
      (readUnquoted rest).2.2)

/-- Read one field: a leading quote opens a quoted field (the text after
its closing quote is expected to be a delimiter, a newline or the end);
anything else scans to the next delimiter. -/
def readField (cs : List Char) : List Char × Option Char × List Char :=
  match cs with
  | [] => ([], none, [])
  | c :: rest =>
    if c = '"' then
      match (scanQuoted rest).2 with
      | [] => ((scanQuoted rest).1, none, [])
      | c' :: r' =>
        if c' = ',' ∨ c' = '\n' then ((scanQuoted rest).1, some c', r')
        else ((scanQuoted rest).1, none, (scanQuoted rest).2)
    else readUnquoted (c :: rest)

/-- Scan fields into records; `fuel` bounds the loop (anything beyond
the text length suffices).  A comma continues the record, a newline
closes it, the end of input closes the last record. -/
def csvRecordsAux (fuel : Nat) (cs : List Char) (acc : List (List Char)) :
    List (List (List Char)) :=
  match fuel with
  | 0 => []
  | fuel + 1 =>
    match readField cs with
    | (f, some c, rest) =>
      if c = ',' then csvRecordsAux fuel rest (acc ++ [f])
      else (acc ++ [f]) :: csvRecordsAux fuel rest []
    | (f, none, _) => [acc ++ [f]]

/-- All records of a CSV text, blank lines skipped
(`skip_blank_lines=True`). -/
def csvRecords (cs : List Char) : List (List (List Char)) :=
  (csvRecordsAux (cs.length + 1) cs []).filter (fun r => r ≠ [[]])

/-- `pd.read_csv` on serialized text: reject empty input, scan the
records, read the first as the header (names stay raw strings), type
every remaining field. -/
def parse_table (cs : List Char) : Option CsvTable :=
  if cs.isEmpty then none
  else
    match csvRecords cs with
    | [] => none
    | h :: rows =>
      some ⟨h.map (fun c => (⟨c⟩ : String)),
        rows.map (fun r => r.map parse_cell)⟩

/-- Parse back a serialized table. -/
def read_back (s : String) : Option CsvTable := parse_table s.data

/-- Cells of the claim's views that the CSV text layer transports
faithfully: a string cell must be non-empty and not a token the reader
re-types (the quoting layer already protects delimiters, quotes and
line breaks, so no characters are excluded); a float cell carries at
least one digit after the point, as its decimal rendering does; the
missing value cannot occur (the data model keeps every column
non-null). -/
def wf_value : Value → Prop
  | .vstr s => s.data ≠ [] ∧ reader_retypes s.data = false
  | .vint _ => True
  | .vfloat _ e => 1 ≤ e
  | .vbool _ => True
  | .vinf _ => True
  | .vnan => False

instance (v : Value) : Decidable (wf_value v) := by
  cases v <;> (unfold wf_value; infer_instance)

/-- A table the CSV text layer transports faithfully: at least one
column, non-empty and distinct column names (`read_csv` renames empty
and mangles duplicate names), non-empty rows of well-formed cells. -/
def wf_table (t : CsvTable) : Prop :=
  t.header ≠ [] ∧ t.header.Nodup ∧
  (∀ name ∈ t.header, name.data ≠ []) ∧
  ∀ row ∈ t.rows, row ≠ [] ∧ ∀ v ∈ row, wf_value v

instance (t : CsvTable) : Decidable (wf_table t) := by
  unfold wf_table; infer_instance

/-! ### The load pipeline -/

/-- The 11 column names the dashboard body reads. -/
def required_columns : List String :=
  ["gender", "race/ethnicity", "parental level of education", "lunch",
   "test preparation course", "math score", "reading score",
   "writing score", "Attendance", "StudyHours", "avg_Score"]

/-- What a CSV source can be: no file at the path, a file `pd.read_csv`
raises on, or a file parsing to a table (of arbitrary columns). -/
inductive CsvSource where
  | absent
  | invalid
  | valid (t : CsvTable)
deriving DecidableEq, Repr

/-- `pd.read_csv(path_or_buffer)`: raises (`error`) on a missing or
unparseable source, else returns the parsed table. -/
def read_csv : CsvSource → Except Unit CsvTable
  | .absent => .error ()
  | .invalid => .error ()
  | .valid t => .ok t

/-- Lines 34-42: `load_student_data` wraps `pd.read_csv` of the default
path in a bare try/except and returns `None` on any failure. -/
def load_student_data (src : CsvSource) : Option CsvTable :=
  match read_csv src with
  | .ok t => some t
  | .error _ => none

/-- What the script ends up showing: the dashboard over a table, the
"please upload" prompt of lines 431-433, or an uncaught exception. -/
inductive AppView where
  | dashboard (t : CsvTable)
  | prompt
  | exception
deriving DecidableEq, Repr

/-- Does the table have every column the body subscripts? -/
def has_required_columns (t : CsvTable) : Bool :=
  required_columns.all (fun c => t.header.contains c)

/-- The body under `if df is not None` (lines 52-429): its column reads
(`df['gender']` at line 67 onward) raise `KeyError` unless every required
column is present. -/
def dashboard_body (t : CsvTable) : AppView :=
  if has_required_columns t then .dashboard t else .exception

/-- Lines 45-52 and 431-433: an uploaded file is read by line 48's bare
`pd.read_csv(uploaded_file)` — outside any try/except — else the default
path is loaded through `load_student_data`; a `None` dataframe shows the
prompt, otherwise the body runs. -/
def app_main (uploaded : Option CsvSource) (defaultFile : CsvSource) : AppView :=
  match uploaded with
  | some u =>
    match read_csv u with
    | .error _ => .exception
    | .ok t => dashboard_body t
  | none =>
    match load_student_data defaultFile with
    | some t => dashboard_body t
    | none => .prompt

/-- A one-row view, legitimate under the Dataset invariant (categorical
columns are non-null strings), whose gender string is numeric-shaped: the
counterexample to the unconditional round-trip claim. -/
def numericGenderTable : CsvTable where
  header := required_columns
  rows := [[.vstr "123", .vstr "group A", .vstr "some college",
    .vstr "standard", .vstr "none", .vint 72, .vint 70, .vint 74,
    .vint 8, .vfloat 65 1, .vfloat 720 1]]

/-- A well-formed one-row view with ordinary categorical strings. -/
def sampleTable : CsvTable where
  header := required_columns
  rows := [[.vstr "female", .vstr "group B", .vstr "bachelor's degree",
    .vstr "standard", .vstr "none", .vint 72, .vint 72, .vint 74,
    .vint 8, .vfloat 65 1, .vfloat 720 1]]

/-- A conditional categorical filter equals an unconditional filter whose
predicate also passes on the wildcard. -/
theorem cond_filter_eq (l : List Record) (c : String) (p : Record → Bool) :
    (if c ≠ "All" then l.filter p else l) =
      l.filter (fun r => (c == "All") || p r) := by
  by_cases h : c = "All"
  · subst h; simp
  · have hb : (c == "All") = false := by
      simp [beq_iff_eq, h]
    simp [h, hb]

/-- The five conditional filters plus the numeric mask collapse to one
`List.filter` by `row_matches`. -/
theorem apply_filters_eq_filter (df : List Record) (s : FilterSpec) :
    apply_filters df s = df.filter (row_matches s) := by
  unfold apply_filters
  dsimp only
  rw [cond_filter_eq, cond_filter_eq, cond_filter_eq, cond_filter_eq,
    cond_filter_eq]
  simp only [List.filter_filter]
  refine List.filter_congr (fun r _ => ?_)
  simp only [row_matches, Bool.and_assoc, Bool.and_comm, Bool.and_left_comm]

/-- The boolean row predicate decides exactly the claim-side property. -/
theorem row_matches_iff (s : FilterSpec) (r : Record) :
    row_matches s r = true ↔ RowMatchesP s r := by
  simp [row_matches, numeric_mask, RowMatchesP, and_assoc]

/-- C1: a row belongs to the filtered view iff it belongs to the source
dataframe and satisfies every filter predicate: each categorical
selectbox is `"All"` or equals the row's value exactly (case-sensitive),
each numeric column lies within its inclusive `[min, max]` bounds, the
average score is at least `avg_score_min` (no upper bound), all
conjoined. -/
theorem mem_apply_filters_iff (df : List Record) (s : FilterSpec) (r : Record) :
    r ∈ apply_filters df s ↔ r ∈ df ∧ RowMatchesP s r := by
  rw [apply_filters_eq_filter, List.mem_filter, row_matches_iff]

/-- C5: on a dataset satisfying the domain invariant, a wildcard-only
filter state returns the dataset itself, contents and order preserved. -/
theorem apply_filters_wildcard (df : List Record) (s : FilterSpec)
    (hs : IsWildcard s) (hdf : ∀ r ∈ df, InDomain r) :
    apply_filters df s = df := by
  rw [apply_filters_eq_filter]
  refine List.filter_eq_self.mpr (fun r hr => ?_)
  rw [row_matches_iff]
  obtain ⟨h1, h2, h3, h4, h5, h6, h7, h8, h9, h10, h11, h12, h13,
    h14, h15, h16⟩ := hs
  obtain ⟨d1, d2, d3, d4, d5, d6, d7, d8, d9, d10, d11, d12⟩ := hdf r hr
  exact ⟨Or.inl h1, Or.inl h2, Or.inl h3, Or.inl h4, Or.inl h5,
    h10 ▸ d1, h11 ▸ d2, h12 ▸ d3, h13 ▸ d4, h14 ▸ d5, h15 ▸ d6,
    h6 ▸ d7, h7 ▸ d8, h8 ▸ d9, h9 ▸ d10, h16 ▸ d11⟩

/-- Witness for C5 at a concrete two-row dataset and the default widget
state. -/
theorem apply_filters_wildcard_witness :
    apply_filters [sampleRecord, sampleRecord2] wildcardSpec
      = [sampleRecord, sampleRecord2] :=
  apply_filters_wildcard [sampleRecord, sampleRecord2] wildcardSpec
    (by decide) (by decide)

/-- C7: the filtered view is a subsequence of the source dataframe: the
surviving rows keep their original relative order, filtering never
reorders or sorts. -/
theorem apply_filters_sublist (df : List Record) (s : FilterSpec) :
    (apply_filters df s).Sublist df := by
  rw [apply_filters_eq_filter]
  exact List.filter_sublist df

/-- C8: filtering is pure in (dataset, spec): running the filter stage
leaves the source dataframe unchanged and only reassigns the derived
`filtered_df`, whose value is a function of `df` and the spec alone. -/
theorem run_filters_frame (st : AppState) (s : FilterSpec) :
    (run_filters st s).df = st.df ∧
      (run_filters st s).filtered_df = apply_filters st.df s :=
  ⟨rfl, rfl⟩

/-- C6: a filter state with any numeric range inverted (`min > max`, as
in the spec scenario `math_min = 90`, `math_max = 10`) gives an empty
filtered view without raising an error, and the output branch then
renders the empty-result message with no Summary computed. -/
theorem apply_filters_inverted_bounds (df : List Record) (s : FilterSpec)
    (h : s.math_max < s.math_min ∨ s.reading_max < s.reading_min ∨
      s.writing_max < s.writing_min ∨
      s.attendance_max < s.attendance_min ∨
      s.study_hours_max < s.study_hours_min) :
    apply_filters df s = [] ∧ render_output (apply_filters df s) = none := by
  have he : apply_filters df s = [] := by
    rw [apply_filters_eq_filter]
    refine List.filter_eq_nil_iff.mpr (fun r _ => ?_)
    intro hm
    obtain ⟨-, -, -, -, -, q1, q2, q3, q4, q5, q6, q7, q8, q9, q10, -⟩ :=
      (row_matches_iff s r).mp hm
    rcases h with h | h | h | h | h
    · omega
    · omega
    · omega
    · omega
    · linarith
  exact ⟨he, by rw [he]; rfl⟩

/-- Witness for C6: the spec scenario `math_min = 90`, `math_max = 10` on
a concrete dataset. -/
theorem apply_filters_inverted_bounds_witness :
    apply_filters [sampleRecord, sampleRecord2]
        { wildcardSpec with math_min := 90, math_max := 10 } = [] ∧
      render_output (apply_filters [sampleRecord, sampleRecord2]
        { wildcardSpec with math_min := 90, math_max := 10 }) = none :=
  apply_filters_inverted_bounds [sampleRecord, sampleRecord2]
    { wildcardSpec with math_min := 90, math_max := 10 }
    (Or.inl (by decide))

/-- A filter by a pointwise-stronger predicate is a subsequence of the
filter by the weaker one. -/
theorem filter_sublist_of_imp {l : List Record} {p q : Record → Bool}
    (h : ∀ a, q a = true → p a = true) :
    (l.filter q).Sublist (l.filter p) := by
  induction l with
  | nil => simp
  | cons a l ih =>
    by_cases hq : q a = true
    · rw [List.filter_cons_of_pos hq, List.filter_cons_of_pos (h a hq)]
      exact ih.cons₂ a
    · rw [List.filter_cons_of_neg (by simpa using hq)]
      by_cases hp : p a = true
      · rw [List.filter_cons_of_pos hp]
        exact ih.cons a
      · rw [List.filter_cons_of_neg (by simpa using hp)]
        exact ih

/-- A stricter filter state accepts fewer rows. -/
theorem rowMatchesP_of_stricter {s s' : FilterSpec} (h : SpecStricter s s')
    {r : Record} (hr : RowMatchesP s' r) : RowMatchesP s r := by
  obtain ⟨c1, c2, c3, c4, c5, n1, n2, n3, n4, n5, n6, n7, n8, n9, n10, n11⟩ := h
  obtain ⟨m1, m2, m3, m4, m5, q1, q2, q3, q4, q5, q6, q7, q8, q9, q10, q11⟩ := hr
  refine ⟨?_, ?_, ?_, ?_, ?_,
    le_trans n1 q1, le_trans q2 n2, le_trans n3 q3, le_trans q4 n4,
    le_trans n5 q5, le_trans q6 n6, le_trans n7 q7, le_trans q8 n8,
    le_trans n9 q9, le_trans q10 n10, le_trans n11 q11⟩
  · rcases c1 with hc | hc
    · rcases m1 with hm | hm
      · exact Or.inl (hc ▸ hm)
      · exact Or.inr (hc ▸ hm)
    · exact Or.inl hc
  · rcases c2 with hc | hc
    · rcases m2 with hm | hm
      · exact Or.inl (hc ▸ hm)
      · exact Or.inr (hc ▸ hm)
    · exact Or.inl hc
  · rcases c3 with hc | hc
    · rcases m3 with hm | hm
      · exact Or.inl (hc ▸ hm)
      · exact Or.inr (hc ▸ hm)
    · exact Or.inl hc
  · rcases c4 with hc | hc
    · rcases m4 with hm | hm
      · exact Or.inl (hc ▸ hm)
      · exact Or.inr (hc ▸ hm)
    · exact Or.inl hc
  · rcases c5 with hc | hc
    · rcases m5 with hm | hm
      · exact Or.inl (hc ▸ hm)
      · exact Or.inr (hc ▸ hm)
    · exact Or.inl hc

/-- C10: filtering is monotone in the bounds: raising lower bounds,
lowering upper bounds, or replacing a categorical wildcard by a concrete
category yields a filtered view that is a subsequence (subset, in
original order) of the original view. -/
theorem apply_filters_monotone (df : List Record) (s s' : FilterSpec)
    (h : SpecStricter s s') :
    (apply_filters df s').Sublist (apply_filters df s) := by
  rw [apply_filters_eq_filter, apply_filters_eq_filter]
  refine filter_sublist_of_imp (fun a ha => ?_)
  rw [row_matches_iff] at ha ⊢
  exact rowMatchesP_of_stricter h ha

/-- Witness for C10: narrowing the default widget state to
`gender = "female"` and `math_min = 50` on a concrete dataset. -/
theorem apply_filters_monotone_witness :
    (apply_filters [sampleRecord, sampleRecord2]
        { wildcardSpec with gender_filter := "female", math_min := 50 }).Sublist
      (apply_filters [sampleRecord, sampleRecord2] wildcardSpec) :=
  apply_filters_monotone [sampleRecord, sampleRecord2] wildcardSpec
    { wildcardSpec with gender_filter := "female", math_min := 50 }
    (by decide)

/-- Column sums as sums over positions. -/
theorem map_sum_eq_fin_sum (l : List Record) (h : Record → ℚ) :
    (l.map h).sum = ∑ i : Fin l.length, h l[(i : Nat)] := by
  rw [← List.ofFn_getElem_eq_map, List.sum_ofFn]

/-- `devSum` as a sum over positions. -/
theorem devSum_eq_fin_sum (view : List Record) (f g : Record → ℚ) :
    devSum view f g = ∑ i : Fin view.length,
      (f view[(i : Nat)] - colMean view f) * (g view[(i : Nat)] - colMean view g) :=
  map_sum_eq_fin_sum view _

/-- A column's deviation sum against itself is nonnegative. -/
theorem devSum_self_nonneg (view : List Record) (f : Record → ℚ) :
    0 ≤ devSum view f f := by
  rw [devSum_eq_fin_sum]
  exact Finset.sum_nonneg (fun i _ => mul_self_nonneg _)

/-- Cauchy-Schwarz for deviation sums: the square of the covariance-type
sum is at most the product of the two variance-type sums. -/
theorem devSum_sq_le (view : List Record) (f g : Record → ℚ) :
    devSum view f g ^ 2 ≤ devSum view f f * devSum view g g := by
  rw [devSum_eq_fin_sum, devSum_eq_fin_sum, devSum_eq_fin_sum]
  have hf : ∀ i ∈ Finset.univ (α := Fin view.length),
      (f view[(i : Nat)] - colMean view f) * (f view[(i : Nat)] - colMean view f)
        = (f view[(i : Nat)] - colMean view f) ^ 2 :=
    fun i _ => (pow_two _).symm
  have hg : ∀ i ∈ Finset.univ (α := Fin view.length),
      (g view[(i : Nat)] - colMean view g) * (g view[(i : Nat)] - colMean view g)
        = (g view[(i : Nat)] - colMean view g) ^ 2 :=
    fun i _ => (pow_two _).symm
  rw [Finset.sum_congr rfl hf, Finset.sum_congr rfl hg]
  exact Finset.sum_mul_sq_le_sq_mul_sq Finset.univ _ _

/-- When `corr` is defined it returns the exact numerator and squared
denominator of the Pearson coefficient; the denominator part is positive
and dominates the squared numerator (Cauchy-Schwarz). -/
theorem corr_some_bounds {view : List Record} {f g : Record → ℚ}
    {p : ℚ × ℚ} (hp : corr view f g = some p) : 0 < p.2 ∧ p.1 ^ 2 ≤ p.2 := by
  rw [corr] at hp
  by_cases h : devSum view f f = 0 ∨ devSum view g g = 0
  · rw [if_pos h] at hp
    exact absurd hp (by simp)
  · rw [if_neg h] at hp
    push_neg at h
    obtain ⟨hf, hg⟩ := h
    have hfpos : 0 < devSum view f f :=
      lt_of_le_of_ne (devSum_self_nonneg view f) (Ne.symm hf)
    have hgpos : 0 < devSum view g g :=
      lt_of_le_of_ne (devSum_self_nonneg view g) (Ne.symm hg)
    obtain rfl : (devSum view f g, devSum view f f * devSum view g g) = p :=
      Option.some_injective _ hp
    exact ⟨mul_pos hfpos hgpos, devSum_sq_le view f g⟩

/-- C9: whenever one of the three reported correlations is defined, it
lies in `[-1, 1]`: the reported pair `p` encodes the coefficient
`p.1 / √p.2`, and `0 < p.2` together with `p.1² ≤ p.2` says exactly that
this value is defined and lies in the closed unit interval. -/
theorem corr_bounded (view : List Record) (p : ℚ × ℚ)
    (hp : (summarize view).corr_study_avg = some p ∨
      (summarize view).corr_attend_avg = some p ∨
      (summarize view).corr_math_read = some p) :
    0 < p.2 ∧ p.1 ^ 2 ≤ p.2 := by
  rcases hp with h | h | h
  · exact corr_some_bounds h
  · exact corr_some_bounds h
  · exact corr_some_bounds h

/-- Witness for C9 at a concrete two-row view with non-degenerate
columns: the study-hours/average-score correlation evaluates to the pair
`(64, 4096)` (coefficient `64/√4096 = 1`). -/
theorem corr_bounded_witness : (0:ℚ) < 4096 ∧ (64:ℚ) ^ 2 ≤ 4096 :=
  corr_bounded [sampleRecord, sampleRecord2] (64, 4096)
    (Or.inl (by norm_num [summarize, corr, devSum, colMean, colSum,
      studyQ, avgQ, sampleRecord, sampleRecord2]))

/-- C2 (counterexample): load failures do not all degrade to the prompt:
a malformed uploaded file propagates the line-48 `pd.read_csv` exception
(no try/except on that path), and a loaded table missing the required
columns raises `KeyError` at the body's first column read — neither shows
the please-provide-input prompt. -/
theorem load_failure_crashes :
    app_main (some .invalid) .absent = .exception ∧
      app_main none (.valid ⟨["gender"], []⟩) = .exception ∧
      AppView.exception ≠ AppView.prompt := by
  refine ⟨rfl, ?_, by decide⟩
  decide

/-- C2 (amended): the guarded path does degrade: when nothing is uploaded
and the default file is absent or malformed, `load_student_data` returns
`None` ("no data") and the app shows the line-431 please-provide-input
prompt instead of crashing. -/
theorem default_load_degrades (d : CsvSource)
    (h : d = .absent ∨ d = .invalid) :
    load_student_data d = none ∧ app_main none d = .prompt := by
  rcases h with rfl | rfl <;> exact ⟨rfl, rfl⟩

/-- Witness for the amended C2 at the absent default file. -/
theorem default_load_degrades_witness :
    load_student_data .absent = none ∧ app_main none .absent = .prompt :=
  default_load_degrades .absent (Or.inl rfl)

/-! ### Digit-level facts for the CSV text layer -/

/-- A digit character decodes to its digit. -/
theorem charDigit_digitChar (d : Nat) (h : d < 10) :
    charDigit (digitChar d) = d := by
  interval_cases d <;> decide

/-- A digit character is a digit character. -/
theorem isDigitChar_digitChar (d : Nat) (h : d < 10) :
    isDigitChar (digitChar d) = true := by
  interval_cases d <;> decide

/-- Digit characters are none of the CSV structural, sign, exponent or
whitespace characters. -/
theorem isDigitChar_ne (c : Char) (h : isDigitChar c = true) :
    c ≠ ',' ∧ c ≠ '\n' ∧ c ≠ '.' ∧ c ≠ '-' ∧ c ≠ '"' ∧ c ≠ '+' ∧
      c ≠ 'e' ∧ c ≠ 'E' ∧ c ≠ ' ' ∧ c ≠ '\t' ∧ c ≠ '\r' := by
  refine ⟨?_, ?_, ?_, ?_, ?_, ?_, ?_, ?_, ?_, ?_, ?_⟩ <;>
    (rintro rfl; exact absurd h (by decide))

/-- Sufficient fuel gives a non-empty digit string. -/
theorem natDigitsAux_ne_nil (fuel n : Nat) (h : n < fuel) :
    natDigitsAux fuel n ≠ [] := by
  match fuel with
  | 0 => omega
  | f + 1 =>
    rw [natDigitsAux]
    by_cases h10 : n < 10
    · simp [h10]
    · simp [h10]

/-- Every character a digit rendering emits is a digit character. -/
theorem natDigitsAux_digits (fuel : Nat) : ∀ n, n < fuel →
    ∀ c ∈ natDigitsAux fuel n, isDigitChar c = true := by
  induction fuel with
  | zero => omega
  | succ f ih =>
    intro n _ c hc
    rw [natDigitsAux] at hc
    by_cases h10 : n < 10
    · rw [if_pos h10] at hc
      simp at hc
      exact hc ▸ isDigitChar_digitChar n h10
    · rw [if_neg h10] at hc
      rcases List.mem_append.mp hc with hl | hr
      · exact ih (n / 10) (by omega) c hl
      · simp at hr
        exact hr ▸ isDigitChar_digitChar (n % 10) (by omega)

/-- Folding the digit accumulator from `a` shifts by a power of ten. -/
theorem digitsToNat_shift (l : List Char) : ∀ a : Nat,
    l.foldl (fun a c => 10 * a + charDigit c) a
      = a * 10 ^ l.length + digitsToNat l := by
  induction l with
  | nil => intro a; simp [digitsToNat]
  | cons c cs ih =>
    intro a
    have hc : digitsToNat (c :: cs)
        = charDigit c * 10 ^ cs.length + digitsToNat cs := by
      show List.foldl _ (10 * 0 + charDigit c) cs = _
      rw [ih (10 * 0 + charDigit c)]
      ring_nf
    show List.foldl _ (10 * a + charDigit c) cs = _
    rw [ih (10 * a + charDigit c), hc, List.length_cons]
    ring

/-- Digit-string values concatenate positionally. -/
theorem digitsToNat_append (l₁ l₂ : List Char) :
    digitsToNat (l₁ ++ l₂)
      = digitsToNat l₁ * 10 ^ l₂.length + digitsToNat l₂ := by
  unfold digitsToNat
  rw [List.foldl_append]
  exact digitsToNat_shift l₂ _

/-- Leading zeros do not change a digit string's value. -/
theorem digitsToNat_replicate_zero (k : Nat) (l : List Char) :
    digitsToNat (List.replicate k '0' ++ l) = digitsToNat l := by
  rw [digitsToNat_append]
  have hz : digitsToNat (List.replicate k '0') = 0 := by
    induction k with
    | zero => rfl
    | succ m ihm =>
      rw [List.replicate_succ]
      show List.foldl _ (10 * 0 + charDigit '0') _ = 0
      have : (10 * 0 + charDigit '0') = 0 := by decide
      rw [this]
      exact ihm
  rw [hz, Nat.zero_mul, Nat.zero_add]

/-- With sufficient fuel the digit rendering round-trips. -/
theorem digitsToNat_natDigitsAux (fuel : Nat) : ∀ n, n < fuel →
    digitsToNat (natDigitsAux fuel n) = n := by
  induction fuel with
  | zero => omega
  | succ f ih =>
    intro n hn
    rw [natDigitsAux]
    by_cases h10 : n < 10
    · rw [if_pos h10]
      show 10 * 0 + charDigit (digitChar n) = n
      rw [charDigit_digitChar n h10]
      omega
    · rw [if_neg h10, digitsToNat_append, ih (n / 10) (by omega)]
      have h1 : digitsToNat [digitChar (n % 10)] = n % 10 := by
        show 10 * 0 + charDigit (digitChar (n % 10)) = n % 10
        rw [charDigit_digitChar (n % 10) (by omega)]
        omega
      rw [h1]
      simp only [List.length_cons, List.length_nil, pow_one]
      omega

/-- The digits of a natural number are non-empty. -/
theorem natDigits_ne_nil (n : Nat) : natDigits n ≠ [] :=
  natDigitsAux_ne_nil (n + 1) n (Nat.lt_succ_self n)

/-- The digits of a natural number are digit characters. -/
theorem natDigits_digits (n : Nat) :
    ∀ c ∈ natDigits n, isDigitChar c = true :=
  natDigitsAux_digits (n + 1) n (Nat.lt_succ_self n)

/-- Decimal rendering of a natural number round-trips. -/
theorem digitsToNat_natDigits (n : Nat) : digitsToNat (natDigits n) = n :=
  digitsToNat_natDigitsAux (n + 1) n (Nat.lt_succ_self n)

/-- A field that starts with a digit carries no sign. -/
theorem stripSign_digit {c : Char} (hc : isDigitChar c = true)
    (l : List Char) : stripSign (c :: l) = (false, c :: l) := by
  obtain ⟨-, -, -, h4, -, h6, -⟩ := isDigitChar_ne c hc
  rw [stripSign, if_neg h4, if_neg h6]

/-- A non-empty all-digit string is an integer token. -/
theorem is_int_cell_of_digits {l : List Char} (hne : l ≠ [])
    (hd : ∀ c ∈ l, isDigitChar c = true) : is_int_cell l = true := by
  match l with
  | [] => exact absurd rfl hne
  | c :: rest =>
    have hcd := hd c (List.mem_cons_self c rest)
    rw [is_int_cell, stripSign_digit hcd rest]
    dsimp only
    simp only [Bool.and_eq_true, Bool.not_eq_true',
      List.isEmpty_eq_false, List.all_eq_true]
    exact ⟨by simp, hd⟩

/-- A non-empty all-digit string parses as its digit value. -/
theorem int_of_chars_of_digits {l : List Char} (hne : l ≠ [])
    (hd : ∀ c ∈ l, isDigitChar c = true) :
    int_of_chars l = (digitsToNat l : Int) := by
  match l with
  | [] => exact absurd rfl hne
  | c :: rest =>
    have hcd := hd c (List.mem_cons_self c rest)
    rw [int_of_chars, stripSign_digit hcd rest]
    rfl

/-- A rendered integer is an integer token and parses back to itself. -/
theorem int_cell_roundtrip (i : Int) :
    is_int_cell (intChars i) = true ∧ int_of_chars (intChars i) = i := by
  have hd := natDigits_digits i.natAbs
  have hne := natDigits_ne_nil i.natAbs
  by_cases hneg : i < 0
  · rw [intChars, if_pos hneg]
    have hs : stripSign ('-' :: natDigits i.natAbs)
        = (true, natDigits i.natAbs) := by
      rw [stripSign, if_pos rfl]
    refine ⟨?_, ?_⟩
    · rw [is_int_cell, hs]
      dsimp only
      simp only [Bool.and_eq_true, Bool.not_eq_true',
        List.isEmpty_eq_false, List.all_eq_true]
      exact ⟨hne, hd⟩
    · rw [int_of_chars, hs]
      dsimp only
      rw [if_pos rfl, digitsToNat_natDigits]
      omega
  · rw [intChars, if_neg hneg]
    refine ⟨is_int_cell_of_digits hne hd, ?_⟩
    rw [int_of_chars_of_digits hne hd, digitsToNat_natDigits]
    omega

/-- `splitOnChar` always yields at least one part. -/
theorem splitOnChar_ne_nil (sep : Char) (cs : List Char) :
    splitOnChar sep cs ≠ [] := by
  match cs with
  | [] => simp [splitOnChar]
  | c :: cs' =>
    rw [splitOnChar]
    by_cases h : c = sep
    · simp [h]
    · rw [if_neg h]
      cases hr : splitOnChar sep cs' <;> simp

/-- A separator-free string is one whole part. -/
theorem splitOnChar_of_not_mem {sep : Char} {cs : List Char}
    (h : sep ∉ cs) : splitOnChar sep cs = [cs] := by
  induction cs with
  | nil => rfl
  | cons c cs' ih =>
    have hcs : sep ∉ cs' := fun hx => h (List.mem_cons_of_mem c hx)
    have hc : c ≠ sep := fun he => h (he ▸ List.mem_cons_self c cs')
    rw [splitOnChar, if_neg hc, ih hcs]

/-- Splitting after a separator-free prefix peels that prefix off. -/
theorem splitOnChar_append {sep : Char} {x rest : List Char} (h : sep ∉ x) :
    splitOnChar sep (x ++ sep :: rest) = x :: splitOnChar sep rest := by
  induction x with
  | nil => simp [splitOnChar]
  | cons a x' ih =>
    have hx : sep ∉ x' := fun hm => h (List.mem_cons_of_mem a hm)
    have ha : a ≠ sep := fun he => h (he ▸ List.mem_cons_self a x')
    rw [List.cons_append, splitOnChar, if_neg ha, ih hx]

/-- A string without exponent markers is all mantissa. -/
theorem splitOnExp_of_not_mem {cs : List Char}
    (h : ∀ c ∈ cs, c ≠ 'e' ∧ c ≠ 'E') : splitOnExp cs = (cs, none) := by
  induction cs with
  | nil => rfl
  | cons c rest ih =>
    have hc := h c (List.mem_cons_self c rest)
    have hcn : ¬(c = 'e' ∨ c = 'E') := by
      rintro (he | he)
      · exact hc.1 he
      · exact hc.2 he
    rw [splitOnExp, if_neg hcn,
      ih (fun x hx => h x (List.mem_cons_of_mem c hx))]

/-- The padded digit string is all digits. -/
theorem paddedDigits_digits (m : Int) (e : Nat) :
    ∀ c ∈ paddedDigits m e, isDigitChar c = true := by
  intro c hcm
  rcases List.mem_append.mp hcm with h1 | h2
  · rw [List.eq_of_mem_replicate h1]; decide
  · exact natDigits_digits m.natAbs c h2

/-- The padded digit string has more than `e` digits. -/
theorem paddedDigits_length (m : Int) (e : Nat) :
    e + 1 ≤ (paddedDigits m e).length := by
  rw [paddedDigits, List.length_append, List.length_replicate]
  have h1 : 1 ≤ (natDigits m.natAbs).length :=
    List.length_pos.mpr (natDigits_ne_nil m.natAbs)
  omega

/-- The padded digit string still reads as `|m|`. -/
theorem digitsToNat_paddedDigits (m : Int) (e : Nat) :
    digitsToNat (paddedDigits m e) = m.natAbs := by
  rw [paddedDigits, digitsToNat_replicate_zero, digitsToNat_natDigits]

/-- The mantissa facts for an all-digit integer part `a` and an
all-digit fraction part `b` around the point. -/
theorem mantissa_parse (a b : List Char) (hane : a ≠ [])
    (hadig : ∀ c ∈ a, isDigitChar c = true)
    (hbdig : ∀ c ∈ b, isDigitChar c = true) :
    is_mantissa (a ++ '.' :: b) = true ∧
      mantissa_of_chars (a ++ '.' :: b)
        = (digitsToNat (a ++ b), b.length) := by
  have hdot_a : '.' ∉ a := fun hm => absurd (hadig '.' hm) (by decide)
  have hdot_b : '.' ∉ b := fun hm => absurd (hbdig '.' hm) (by decide)
  have hsplit : splitOnChar '.' (a ++ '.' :: b) = [a, b] := by
    rw [splitOnChar_append hdot_a, splitOnChar_of_not_mem hdot_b]
  constructor
  · rw [is_mantissa, hsplit]
    dsimp only
    simp only [Bool.and_eq_true, Bool.or_eq_true, Bool.not_eq_true',
      List.isEmpty_eq_false, List.all_eq_true]
    exact ⟨⟨hadig, hbdig⟩, Or.inl hane⟩
  · rw [mantissa_of_chars, hsplit]

/-- Parsing facts for a float-shaped token built from an all-digit
integer part `a` and an all-digit fraction part `b`, in both the plain
and the `'-'`-prefixed form. -/
theorem float_token_parse (a b : List Char) (hane : a ≠ []) (hbne : b ≠ [])
    (hadig : ∀ c ∈ a, isDigitChar c = true)
    (hbdig : ∀ c ∈ b, isDigitChar c = true) :
    is_int_cell (a ++ '.' :: b) = false ∧
      is_float_cell (a ++ '.' :: b) = true ∧
      float_of_chars (a ++ '.' :: b)
        = ((digitsToNat (a ++ b) : Int), b.length) ∧
      is_int_cell (('-' :: a) ++ '.' :: b) = false ∧
      is_float_cell (('-' :: a) ++ '.' :: b) = true ∧
      float_of_chars (('-' :: a) ++ '.' :: b)
        = (-(digitsToNat (a ++ b) : Int), b.length) := by
  obtain ⟨c, cs, hc⟩ : ∃ c cs, a = c :: cs := by
    cases h : a with
    | nil => exact absurd h hane
    | cons c cs => exact ⟨c, cs, rfl⟩
  have hcd : isDigitChar c = true := hadig c (hc ▸ List.mem_cons_self c cs)
  have hsp : stripSign (a ++ '.' :: b) = (false, a ++ '.' :: b) := by
    rw [hc, List.cons_append, stripSign_digit hcd]
  have hsn : stripSign (('-' :: a) ++ '.' :: b) = (true, a ++ '.' :: b) := by
    rw [List.cons_append, stripSign, if_pos rfl]
  have hexp : splitOnExp (a ++ '.' :: b) = (a ++ '.' :: b, none) := by
    refine splitOnExp_of_not_mem ?_
    intro x hx
    rcases List.mem_append.mp hx with h1 | h2
    · obtain ⟨-, -, -, -, -, -, h7, h8, -⟩ := isDigitChar_ne x (hadig x h1)
      exact ⟨h7, h8⟩
    · rcases List.mem_cons.mp h2 with rfl | hm
      · exact ⟨by decide, by decide⟩
      · obtain ⟨-, -, -, -, -, -, h7, h8, -⟩ := isDigitChar_ne x (hbdig x hm)
        exact ⟨h7, h8⟩
  obtain ⟨hman, hmval⟩ := mantissa_parse a b hane hadig hbdig
  have hall : (a ++ '.' :: b).all isDigitChar = false :=
    List.all_eq_false.mpr
      ⟨'.', List.mem_append_right _ (List.mem_cons_self _ _), by decide⟩
  have hint : is_int_cell (a ++ '.' :: b) = false := by
    rw [is_int_cell, hsp]
    dsimp only
    rw [hall, Bool.and_false]
  have hintn : is_int_cell (('-' :: a) ++ '.' :: b) = false := by
    rw [is_int_cell, hsn]
    dsimp only
    rw [hall, Bool.and_false]
  have hflo : is_float_cell (a ++ '.' :: b) = true := by
    rw [is_float_cell, hsp]
    dsimp only
    rw [hexp]
    exact hman
  have hflon : is_float_cell (('-' :: a) ++ '.' :: b) = true := by
    rw [is_float_cell, hsn]
    dsimp only
    rw [hexp]
    exact hman
  have hval : float_of_chars (a ++ '.' :: b)
      = ((digitsToNat (a ++ b) : Int), b.length) := by
    rw [float_of_chars, hsp]
    dsimp only
    rw [hexp]
    dsimp only
    rw [hmval]
    norm_num
  have hvaln : float_of_chars (('-' :: a) ++ '.' :: b)
      = (-(digitsToNat (a ++ b) : Int), b.length) := by
    rw [float_of_chars, hsn]
    dsimp only
    rw [hexp]
    dsimp only
    rw [hmval]
    norm_num
  exact ⟨hint, hflo, hval, hintn, hflon, hvaln⟩

/-- A rendered float is not an integer token, is a float token, and
parses back to exactly its mantissa and exponent. -/
theorem float_cell_roundtrip (m : Int) (e : Nat) (he : 1 ≤ e) :
    is_int_cell (floatChars m e) = false ∧
      is_float_cell (floatChars m e) = true ∧
      float_of_chars (floatChars m e) = (m, e) := by
  have hds := paddedDigits_digits m e
  have hlen := paddedDigits_length m e
  have hval := digitsToNat_paddedDigits m e
  have hab : (paddedDigits m e).take ((paddedDigits m e).length - e) ++
      (paddedDigits m e).drop ((paddedDigits m e).length - e)
        = paddedDigits m e := List.take_append_drop _ _
  have ha_digits : ∀ c ∈ (paddedDigits m e).take
      ((paddedDigits m e).length - e), isDigitChar c = true :=
    fun c hc => hds c (List.mem_of_mem_take hc)
  have hb_digits : ∀ c ∈ (paddedDigits m e).drop
      ((paddedDigits m e).length - e), isDigitChar c = true :=
    fun c hc => hds c (List.mem_of_mem_drop hc)
  have hbl : ((paddedDigits m e).drop
      ((paddedDigits m e).length - e)).length = e := by
    rw [List.length_drop]
    omega
  have hal : ((paddedDigits m e).take
      ((paddedDigits m e).length - e)).length
        = (paddedDigits m e).length - e := by
    rw [List.length_take]
    omega
  have ha_ne : (paddedDigits m e).take
      ((paddedDigits m e).length - e) ≠ [] := by
    rw [← List.length_pos, hal]
    omega
  have hb_ne : (paddedDigits m e).drop
      ((paddedDigits m e).length - e) ≠ [] := by
    rw [← List.length_pos, hbl]
    omega
  have H := float_token_parse _ _ ha_ne hb_ne ha_digits hb_digits
  have habv : (digitsToNat
      ((paddedDigits m e).take ((paddedDigits m e).length - e) ++
        (paddedDigits m e).drop ((paddedDigits m e).length - e)) : Int)
          = (m.natAbs : Int) := by
    rw [hab, hval]
  by_cases hm : m < 0
  · have hfc : floatChars m e =
        ('-' :: (paddedDigits m e).take ((paddedDigits m e).length - e)) ++
          '.' :: (paddedDigits m e).drop ((paddedDigits m e).length - e) := by
      simp only [floatChars]
      rw [if_pos hm, List.cons_append]
    refine ⟨by rw [hfc]; exact H.2.2.2.1, by rw [hfc]; exact H.2.2.2.2.1, ?_⟩
    rw [hfc, H.2.2.2.2.2, habv, hbl]
    simp only [Prod.mk.injEq]
    refine ⟨?_, trivial⟩
    omega
  · have hfc : floatChars m e =
        (paddedDigits m e).take ((paddedDigits m e).length - e) ++
          '.' :: (paddedDigits m e).drop ((paddedDigits m e).length - e) := by
      simp only [floatChars]
      rw [if_neg hm]
    refine ⟨by rw [hfc]; exact H.1, by rw [hfc]; exact H.2.1, ?_⟩
    rw [hfc, H.2.2.1, habv, hbl]
    simp only [Prod.mk.injEq]
    refine ⟨?_, trivial⟩
    omega

/-- Every character of a rendered integer is the sign or a digit. -/
theorem mem_intChars {i : Int} {c : Char} (hc : c ∈ intChars i) :
    c = '-' ∨ isDigitChar c = true := by
  rw [intChars] at hc
  by_cases hm : i < 0
  · rw [if_pos hm] at hc
    rcases List.mem_cons.mp hc with he | hmm
    · exact Or.inl he
    · exact Or.inr (natDigits_digits i.natAbs c hmm)
  · rw [if_neg hm] at hc
    exact Or.inr (natDigits_digits i.natAbs c hc)

/-- Every character of a rendered float is the sign, the point, or a
digit. -/
theorem mem_floatChars {m : Int} {e : Nat} {c : Char}
    (hc : c ∈ floatChars m e) :
    c = '-' ∨ c = '.' ∨ isDigitChar c = true := by
  have hds := paddedDigits_digits m e
  have hbody : ∀ x ∈ (paddedDigits m e).take ((paddedDigits m e).length - e) ++
      '.' :: (paddedDigits m e).drop ((paddedDigits m e).length - e),
      x = '.' ∨ isDigitChar x = true := by
    intro x hx
    rcases List.mem_append.mp hx with h1 | h2
    · exact Or.inr (hds x (List.mem_of_mem_take h1))
    · rcases List.mem_cons.mp h2 with he | hm
      · exact Or.inl he
      · exact Or.inr (hds x (List.mem_of_mem_drop hm))
  simp only [floatChars] at hc
  by_cases hm : m < 0
  · rw [if_pos hm] at hc
    rcases List.mem_cons.mp hc with he | hmm
    · exact Or.inl he
    · exact Or.inr (hbody c hmm)
  · rw [if_neg hm] at hc
    exact Or.inr (hbody c hc)

/-- A rendered integer is non-empty. -/
theorem intChars_ne_nil (i : Int) : intChars i ≠ [] := by
  rw [intChars]
  by_cases hm : i < 0
  · rw [if_pos hm]
    simp
  · rw [if_neg hm]
    exact natDigits_ne_nil i.natAbs

/-- A rendered float is non-empty. -/
theorem floatChars_ne_nil (m : Int) (e : Nat) : floatChars m e ≠ [] := by
  simp only [floatChars]
  by_cases hm : m < 0
  · rw [if_pos hm]
    simp
  · rw [if_neg hm]
    intro hcon
    exact absurd (List.append_eq_nil.mp hcon).2 (by simp)

/-- A rendered integer is made of numeric characters. -/
theorem numeric_chars_intChars (i : Int) :
    numeric_chars (intChars i) = true := by
  rw [numeric_chars, List.all_eq_true]
  intro c hc
  rcases mem_intChars hc with rfl | hd
  · decide
  · simp [hd]

/-- A rendered float is made of numeric characters. -/
theorem numeric_chars_floatChars (m : Int) (e : Nat) :
    numeric_chars (floatChars m e) = true := by
  rw [numeric_chars, List.all_eq_true]
  intro c hc
  rcases mem_floatChars hc with rfl | rfl | hd
  · decide
  · decide
  · simp [hd]

/-- Trimming is the identity on whitespace-free text. -/
theorem trimWs_eq_self {cs : List Char}
    (h : ∀ c ∈ cs, isWsChar c = false) : trimWs cs = cs := by
  have hdw : ∀ l : List Char, (∀ c ∈ l, isWsChar c = false) →
      l.dropWhile isWsChar = l := by
    intro l hl
    cases l with
    | nil => rfl
    | cons a l' =>
      rw [List.dropWhile_cons, hl a (List.mem_cons_self a l')]
      simp
  rw [trimWs, hdw cs h,
    hdw cs.reverse (fun c hcm => h c (List.mem_reverse.mp hcm)),
    List.reverse_reverse]

/-- What a numeric character can be. -/
theorem numeric_chars_spec {cs : List Char} (h : numeric_chars cs = true) :
    ∀ c ∈ cs, isDigitChar c = true ∨ c = '-' ∨ c = '+' ∨ c = '.' := by
  rw [numeric_chars, List.all_eq_true] at h
  intro c hc
  have hx := h c hc
  simp only [Bool.or_eq_true, decide_eq_true_eq] at hx
  tauto

/-- Numeric characters carry no whitespace. -/
theorem ws_free_of_numeric {cs : List Char} (h : numeric_chars cs = true) :
    ∀ c ∈ cs, isWsChar c = false := by
  intro c hc
  rcases numeric_chars_spec h c hc with hd | rfl | rfl | rfl
  · obtain ⟨-, -, -, -, -, -, -, -, h9, h10, -⟩ := isDigitChar_ne c hd
    simp [isWsChar, h9, h10]
  · decide
  · decide
  · decide

/-- Stripping a sign preserves numeric-character-ness. -/
theorem numeric_chars_stripSign {cs : List Char}
    (h : numeric_chars cs = true) :
    numeric_chars (stripSign cs).2 = true := by
  cases cs with
  | nil => rfl
  | cons c rest =>
    rw [numeric_chars, List.all_eq_true] at h
    have hrest : numeric_chars rest = true := by
      rw [numeric_chars, List.all_eq_true]
      exact fun x hx => h x (List.mem_cons_of_mem c hx)
    by_cases h1 : c = '-'
    · subst h1
      exact hrest
    · by_cases h2 : c = '+'
      · subst h2
        exact hrest
      · have hs : stripSign (c :: rest) = (false, c :: rest) := by
          rw [stripSign, if_neg h1, if_neg h2]
        rw [hs]
        rw [numeric_chars, List.all_eq_true]
        exact h

/-- No NA marker, boolean token or infinity token is made of numeric
characters (the empty marker is excluded by non-emptiness). -/
theorem not_special_token_of_numeric {cs : List Char} (hne : cs ≠ [])
    (h : numeric_chars cs = true) :
    is_na_token cs = false ∧ is_true_token cs = false ∧
      is_false_token cs = false ∧ is_inf_cell cs = false := by
  refine ⟨?_, ?_, ?_, ?_⟩
  · rw [is_na_token, List.any_eq_false]
    intro t ht hbeq
    have hts : t.data = cs := eq_of_beq hbeq
    rw [← hts] at h hne
    have hall : ∀ s ∈ na_tokens, numeric_chars s.data = true →
        s.data ≠ [] → False := by decide
    exact hall t ht h hne
  · rw [is_true_token, List.any_eq_false]
    intro t ht hbeq
    have hts : t.data = cs := eq_of_beq hbeq
    rw [← hts] at h
    have hall : ∀ s ∈ true_tokens, numeric_chars s.data = true → False := by
      decide
    exact hall t ht h
  · rw [is_false_token, List.any_eq_false]
    intro t ht hbeq
    have hts : t.data = cs := eq_of_beq hbeq
    rw [← hts] at h
    have hall : ∀ s ∈ false_tokens, numeric_chars s.data = true → False := by
      decide
    exact hall t ht h
  · have h2 := numeric_chars_stripSign h
    rw [is_inf_cell, List.any_eq_false]
    intro t ht hbeq
    have hts : t.data = (stripSign cs).2 := eq_of_beq hbeq
    rw [← hts] at h2
    have hall : ∀ s ∈ inf_tokens, numeric_chars s.data = true → False := by
      decide
    exact hall t ht h2

/-- Well-formed cells render to non-empty fields. -/
theorem render_cell_ne_nil {v : Value} (h : wf_value v) :
    render_cell v ≠ [] := by
  cases v with
  | vstr s => exact h.1
  | vint i => exact intChars_ne_nil i
  | vfloat m e => exact floatChars_ne_nil m e
  | vbool b => cases b <;> decide
  | vinf neg => cases neg <;> decide
  | vnan => exact h.elim

/-- A well-formed cell's rendering parses back to the cell: `read_csv`
re-types exactly the original dtype and value. -/
theorem parse_render_cell {v : Value} (h : wf_value v) :
    parse_cell (render_cell v) = v := by
  have hor : ∀ a b : Bool, (a || b) = false → a = false ∧ b = false := by
    decide
  cases v with
  | vstr s =>
    obtain ⟨-, hrt⟩ := h
    rw [reader_retypes] at hrt
    obtain ⟨h15, h6⟩ := hor _ _ hrt
    obtain ⟨h14, h5⟩ := hor _ _ h15
    obtain ⟨h13, h4⟩ := hor _ _ h14
    obtain ⟨h12, h3⟩ := hor _ _ h13
    obtain ⟨h1, h2⟩ := hor _ _ h12
    rw [render_cell, parse_cell, h1, h2, h3, h4, h5, h6]
    simp
  | vint i =>
    have hnum := numeric_chars_intChars i
    have hne := intChars_ne_nil i
    obtain ⟨hic, hval⟩ := int_cell_roundtrip i
    obtain ⟨hna, htr, hfa, -⟩ := not_special_token_of_numeric hne hnum
    have htrim : trimWs (intChars i) = intChars i :=
      trimWs_eq_self (ws_free_of_numeric hnum)
    rw [render_cell, parse_cell, htrim, hna, htr, hfa, hic, hval]
    simp
  | vfloat m e =>
    have hnum := numeric_chars_floatChars m e
    have hne := floatChars_ne_nil m e
    obtain ⟨hint, hflo, hval⟩ := float_cell_roundtrip m e h
    obtain ⟨hna, htr, hfa, hinf⟩ := not_special_token_of_numeric hne hnum
    have htrim : trimWs (floatChars m e) = floatChars m e :=
      trimWs_eq_self (ws_free_of_numeric hnum)
    rw [render_cell, parse_cell, htrim, hna, htr, hfa, hint, hinf, hflo,
      hval]
    simp
  | vbool b => cases b <;> decide
  | vinf neg => cases neg <;> decide
  | vnan => exact h.elim

/-- The quoted-field scanner undoes the csv escape: it reads the escaped
body up to the closing quote and leaves the rest (which must not begin
with another quote, lest it read an escape). -/
theorem scanQuoted_escape (x r : List Char) (hr : r.head? ≠ some '"') :
    scanQuoted (escapeQuotes x ++ '"' :: r) = (x, r) := by
  induction x with
  | nil =>
    show scanQuoted ('"' :: r) = ([], r)
    rw [scanQuoted.eq_def]
    dsimp only
    rw [if_pos rfl]
    cases r with
    | nil => rfl
    | cons c' r' =>
      have hc' : c' ≠ '"' := by
        intro he
        exact hr (by rw [List.head?_cons, he])
      dsimp only
      rw [if_neg hc']
  | cons c x' ih =>
    rw [escapeQuotes]
    by_cases hc : c = '"'
    · rw [if_pos hc, hc, List.cons_append, List.cons_append,
        scanQuoted.eq_def]
      dsimp only
      rw [if_pos rfl, if_pos rfl, ih]
    · rw [if_neg hc, List.cons_append, scanQuoted.eq_def]
      dsimp only
      rw [if_neg hc, ih]

/-- The unquoted-field scanner reads up to the first delimiter. -/
theorem readUnquoted_scan (x : List Char) (d : Char) (r : List Char)
    (hx : ∀ c ∈ x, c ≠ ',' ∧ c ≠ '\n') (hd : d = ',' ∨ d = '\n') :
    readUnquoted (x ++ d :: r) = (x, some d, r) := by
  induction x with
  | nil =>
    show readUnquoted (d :: r) = ([], some d, r)
    rw [readUnquoted, if_pos hd]
  | cons c x' ih =>
    have hc := hx c (List.mem_cons_self c x')
    have hcn : ¬(c = ',' ∨ c = '\n') := by
      rintro (he | he)
      · exact hc.1 he
      · exact hc.2 he
    rw [List.cons_append, readUnquoted, if_neg hcn,
      ih (fun y hy => hx y (List.mem_cons_of_mem c hy))]

/-- Reading a field written by the quoting writer recovers it exactly,
leaving the delimiter and the rest of the text. -/
theorem readField_quoteCell (raw : List Char) (d : Char) (rest : List Char)
    (hd : d = ',' ∨ d = '\n') :
    readField (quoteCell raw ++ d :: rest) = (raw, some d, rest) := by
  have hdq : d ≠ '"' := by
    rcases hd with rfl | rfl <;> decide
  cases hq : needsQuoting raw with
  | true =>
    rw [quoteCell, if_pos hq, List.cons_append, List.append_assoc,
      List.singleton_append, readField, if_pos rfl]
    have hr : (d :: rest).head? ≠ some '"' := by
      rw [List.head?_cons]
      intro hcon
      exact hdq (by injection hcon)
    rw [scanQuoted_escape raw (d :: rest) hr]
    dsimp only
    rw [if_pos hd]
  | false =>
    have hqn : ¬(needsQuoting raw = true) := by
      rw [hq]
      simp
    have hfree : ∀ c ∈ raw, c ≠ ',' ∧ c ≠ '"' ∧ c ≠ '\n' := by
      rw [needsQuoting, List.any_eq_false] at hq
      intro c hcm
      have hx := hq c hcm
      simp only [Bool.or_eq_true, decide_eq_true_eq, not_or] at hx
      exact ⟨hx.1.1.1, hx.1.1.2, hx.1.2⟩
    rw [quoteCell, if_neg hqn]
    cases raw with
    | nil =>
      show readField (d :: rest) = ([], some d, rest)
      rw [readField, if_neg hdq]
      exact readUnquoted_scan [] d rest (by simp) hd
    | cons c raw' =>
      have hcq : c ≠ '"' :=
        (hfree c (List.mem_cons_self c raw')).2.1
      rw [List.cons_append, readField, if_neg hcq, ← List.cons_append]
      exact readUnquoted_scan (c :: raw') d rest
        (fun y hy => ⟨(hfree y hy).1, (hfree y hy).2.2⟩) hd

/-- The quoted scanner never lengthens its input. -/
theorem scanQuoted_len (n : Nat) : ∀ cs : List Char, cs.length ≤ n →
    ((scanQuoted cs).2).length ≤ cs.length := by
  induction n with
  | zero =>
    intro cs hlen
    have hcs : cs = [] := List.length_eq_zero.mp (Nat.le_zero.mp hlen)
    subst hcs
    exact Nat.le_refl 0
  | succ k ih =>
    intro cs hlen
    cases cs with
    | nil => exact Nat.le_refl 0
    | cons c rest =>
      rw [scanQuoted.eq_def]
      dsimp only
      by_cases hc : c = '"'
      · rw [if_pos hc]
        cases rest with
        | nil => simp
        | cons c' rest' =>
          dsimp only
          by_cases hc' : c' = '"'
          · rw [if_pos hc']
            dsimp only
            have h1 := ih rest' (by
              simp only [List.length_cons] at hlen
              omega)
            simp only [List.length_cons]
            omega
          · rw [if_neg hc']
            dsimp only
            simp only [List.length_cons]
            omega
      · rw [if_neg hc]
        dsimp only
        have h1 := ih rest (by
          simp only [List.length_cons] at hlen
          omega)
        simp only [List.length_cons]
        omega

/-- A delimiter-terminated unquoted read strictly shrinks the input. -/
theorem readUnquoted_len : ∀ (cs f : List Char) (d : Char) (r : List Char),
    readUnquoted cs = (f, some d, r) → r.length < cs.length := by
  intro cs
  induction cs with
  | nil =>
    intro f d r h
    rw [readUnquoted] at h
    simp at h
  | cons c rest ih =>
    intro f d r h
    rw [readUnquoted] at h
    by_cases hc : c = ',' ∨ c = '\n'
    · rw [if_pos hc] at h
      simp only [Prod.mk.injEq] at h
      obtain ⟨-, -, h3⟩ := h
      subst h3
      simp
    · rw [if_neg hc] at h
      simp only [Prod.mk.injEq] at h
      obtain ⟨-, h2, h3⟩ := h
      have heq : readUnquoted rest = ((readUnquoted rest).1, some d, r) := by
        rw [← h2, ← h3]
      have h4 := ih (readUnquoted rest).1 d r heq
      simp only [List.length_cons]
      omega

/-- A delimiter-terminated field read strictly shrinks the input. -/
theorem readField_len (cs f : List Char) (d : Char) (r : List Char)
    (h : readField cs = (f, some d, r)) : r.length < cs.length := by
  cases cs with
  | nil =>
    rw [readField] at h
    simp at h
  | cons c rest =>
    rw [readField] at h
    by_cases hc : c = '"'
    · rw [if_pos hc] at h
      cases hsq : (scanQuoted rest).2 with
      | nil =>
        rw [hsq] at h
        simp at h
      | cons c' r' =>
        rw [hsq] at h
        dsimp only at h
        by_cases hc' : c' = ',' ∨ c' = '\n'
        · rw [if_pos hc'] at h
          simp only [Prod.mk.injEq] at h
          obtain ⟨-, -, h3⟩ := h
          subst h3
          have hlen := scanQuoted_len rest.length rest (Nat.le_refl _)
          rw [hsq] at hlen
          simp only [List.length_cons] at hlen ⊢
          omega
        · rw [if_neg hc'] at h
          simp at h
    · rw [if_neg hc] at h
      exact readUnquoted_len (c :: rest) f d r h

/-- The record scanner is fuel-irrelevant once fuel exceeds the text
length. -/
theorem csvRecordsAux_irrel (n : Nat) : ∀ (f₁ f₂ : Nat) (cs : List Char)
    (acc : List (List Char)), cs.length ≤ n → cs.length < f₁ →
    cs.length < f₂ → csvRecordsAux f₁ cs acc = csvRecordsAux f₂ cs acc := by
  induction n with
  | zero =>
    intro f₁ f₂ cs acc hn h1 h2
    have hcs : cs = [] := List.length_eq_zero.mp (Nat.le_zero.mp hn)
    subst hcs
    obtain ⟨a, rfl⟩ : ∃ a, f₁ = a + 1 := ⟨f₁ - 1, by omega⟩
    obtain ⟨b, rfl⟩ : ∃ b, f₂ = b + 1 := ⟨f₂ - 1, by omega⟩
    rfl
  | succ k ih =>
    intro f₁ f₂ cs acc hn h1 h2
    obtain ⟨a, rfl⟩ : ∃ a, f₁ = a + 1 := ⟨f₁ - 1, by omega⟩
    obtain ⟨b, rfl⟩ : ∃ b, f₂ = b + 1 := ⟨f₂ - 1, by omega⟩
    rw [csvRecordsAux, csvRecordsAux]
    cases hrf : readField cs with
    | mk fld p =>
      cases p with
      | mk t rest =>
        cases t with
        | none => rfl
        | some c =>
          have hlen : rest.length < cs.length :=
            readField_len cs fld c rest hrf
          dsimp only
          by_cases hc : c = ','
          · rw [if_pos hc, if_pos hc]
            exact ih a b rest (acc ++ [fld]) (by omega) (by omega) (by omega)
          · rw [if_neg hc, if_neg hc,
              ih a b rest [] (by omega) (by omega) (by omega)]

/-- Scanning one written record consumes exactly it and continues behind
its newline. -/
theorem csvRecordsAux_record (raws : List (List Char)) : raws ≠ [] →
    ∀ (rest : List Char) (acc : List (List Char)) (f₁ f₂ : Nat),
    (joinChars ',' (raws.map quoteCell) ++ '\n' :: rest).length < f₁ →
    rest.length < f₂ →
    csvRecordsAux f₁ (joinChars ',' (raws.map quoteCell) ++ '\n' :: rest) acc
      = (acc ++ raws) :: csvRecordsAux f₂ rest [] := by
  induction raws with
  | nil => intro hcon; exact absurd rfl hcon
  | cons r rs ih =>
    intro _ rest acc f₁ f₂ h1 h2
    cases rs with
    | nil =>
      rw [List.map_cons, List.map_nil, joinChars] at h1 ⊢
      obtain ⟨a, rfl⟩ : ∃ a, f₁ = a + 1 := ⟨f₁ - 1, by omega⟩
      rw [csvRecordsAux, readField_quoteCell r '\n' rest (Or.inr rfl)]
      dsimp only
      rw [if_neg (by decide : ¬('\n' = ','))]
      congr 1
      refine csvRecordsAux_irrel rest.length a f₂ rest [] (Nat.le_refl _)
        ?_ h2
      simp only [List.length_append, List.length_cons] at h1
      omega
    | cons r' rs' =>
      obtain ⟨a, rfl⟩ : ∃ a, f₁ = a + 1 := ⟨f₁ - 1, by omega⟩
      rw [List.map_cons, List.map_cons, joinChars, List.append_assoc,
        List.cons_append, ← List.map_cons quoteCell r' rs'] at h1 ⊢
      rw [csvRecordsAux,
        readField_quoteCell r ','
          (joinChars ',' ((r' :: rs').map quoteCell) ++ '\n' :: rest)
          (Or.inl rfl)]
      dsimp only
      rw [if_pos rfl]
      simp only [List.length_append, List.length_cons] at h1
      rw [ih (by simp) rest (acc ++ [r]) a f₂ (by
        simp only [List.length_append, List.length_cons]
        omega) h2]
      rw [List.append_assoc, List.singleton_append]

/-- Scanning a whole serialized text yields its records followed by one
final empty record (the text ends with a newline). -/
theorem csvRecordsAux_table : ∀ (recs : List (List (List Char))),
    (∀ rec ∈ recs, rec ≠ []) → ∀ f : Nat,
    ((recs.map render_record).flatten).length < f →
    csvRecordsAux f ((recs.map render_record).flatten) [] = recs ++ [[[]]] := by
  intro recs
  induction recs with
  | nil =>
    intro _ f hf
    rw [List.map_nil, List.flatten_nil] at hf ⊢
    obtain ⟨a, rfl⟩ : ∃ a, f = a + 1 := ⟨f - 1, by omega⟩
    rfl
  | cons rec rs ih =>
    intro hne f hf
    rw [List.map_cons, List.flatten_cons, render_record, List.append_assoc,
      List.singleton_append] at hf ⊢
    rw [csvRecordsAux_record rec (hne rec (List.mem_cons_self _ _))
      ((rs.map render_record).flatten) [] f
      (((rs.map render_record).flatten).length + 1) hf (Nat.lt_succ_self _)]
    rw [ih (fun x hx => hne x (List.mem_cons_of_mem rec hx))
      (((rs.map render_record).flatten).length + 1) (Nat.lt_succ_self _)]
    simp

/-- The record scan of a serialized well-formed table is exactly the
header record followed by the row records (the final blank record is
dropped as a blank line). -/
theorem csvRecords_serialize (t : CsvTable) (h : wf_table t) :
    csvRecords (serialize_table t)
      = t.header.map String.data
          :: t.rows.map (fun row => row.map render_cell) := by
  obtain ⟨hhne, -, hnames, hrows⟩ := h
  have hne_recs : ∀ rec ∈ (t.header.map String.data
      :: t.rows.map (fun row => row.map render_cell)), rec ≠ [] := by
    intro rec hrec
    rcases List.mem_cons.mp hrec with rfl | hm
    · intro hcon
      exact hhne (List.map_eq_nil_iff.mp hcon)
    · obtain ⟨row, hrow, rfl⟩ := List.mem_map.mp hm
      intro hcon
      exact (hrows row hrow).1 (List.map_eq_nil_iff.mp hcon)
  have hnb : ∀ rec ∈ (t.header.map String.data
      :: t.rows.map (fun row => row.map render_cell)), rec ≠ [[]] := by
    intro rec hrec hcon
    have hmem : ([] : List Char) ∈ rec := by
      rw [hcon]
      exact List.mem_cons_self _ _
    rcases List.mem_cons.mp hrec with rfl | hm
    · obtain ⟨name, hn, he⟩ := List.mem_map.mp hmem
      exact hnames name hn he
    · obtain ⟨row, hrow, rfl⟩ := List.mem_map.mp hm
      obtain ⟨v, hv, he⟩ := List.mem_map.mp hmem
      exact render_cell_ne_nil ((hrows row hrow).2 v hv) he
  rw [csvRecords, serialize_table,
    csvRecordsAux_table _ hne_recs _ (Nat.lt_succ_self _),
    List.filter_append]
  have h1 : List.filter (fun r => decide (r ≠ [[]]))
      (t.header.map String.data
        :: t.rows.map (fun row => row.map render_cell))
      = t.header.map String.data
          :: t.rows.map (fun row => row.map render_cell) :=
    List.filter_eq_self.mpr (fun rec hrec => decide_eq_true (hnb rec hrec))
  have h2 : List.filter (fun r => decide (r ≠ [[]]))
      ([[[]]] : List (List (List Char))) = [] := rfl
  rw [h1, h2, List.append_nil]

/-- The serialized table of a well-formed view parses back to exactly the
same table: same column names and order, same rows, same typed values. -/
theorem parse_serialize_table {t : CsvTable} (h : wf_table t) :
    parse_table (serialize_table t) = some t := by
  have hrecs := csvRecords_serialize t h
  have hne : (serialize_table t).isEmpty = false := by
    rw [List.isEmpty_eq_false]
    intro hcon
    rw [serialize_table, List.map_cons, List.flatten_cons,
      render_record] at hcon
    have h1 := (List.append_eq_nil.mp hcon).1
    have h2 := (List.append_eq_nil.mp h1).2
    exact absurd h2 (by simp)
  rw [parse_table, hne]
  simp only [Bool.false_eq_true, if_false]
  rw [hrecs]
  dsimp only
  obtain ⟨-, -, -, hrows⟩ := h
  rw [List.map_map, List.map_map]
  have hid : ((fun c => (⟨c⟩ : String)) ∘ String.data) = id :=
    funext fun st => rfl
  rw [hid, List.map_id]
  have hrows2 : t.rows.map ((fun r => r.map parse_cell)
      ∘ (fun row => row.map render_cell)) = t.rows := by
    have h1 : t.rows.map ((fun r => r.map parse_cell)
        ∘ (fun row => row.map render_cell)) = t.rows.map id := by
      refine List.map_congr_left ?_
      intro row hrow
      show (row.map render_cell).map parse_cell = row
      rw [List.map_map]
      have h2 : row.map (parse_cell ∘ render_cell) = row.map id :=
        List.map_congr_left
          (fun v hv => parse_render_cell ((hrows row hrow).2 v hv))
      rw [h2, List.map_id]
    rw [h1, List.map_id]
  rw [hrows2]

set_option maxRecDepth 40000 in
/-- C4 (counterexample): `to_serialized_table` is not a lossless round
trip for every view: on a legitimate one-row view whose gender string is
`"123"`, re-parsing the serialized text re-types that cell as the integer
`123`, so the parsed table differs from the view. -/
theorem to_serialized_table_not_lossless :
    read_back (to_serialized_table numericGenderTable)
      ≠ some numericGenderTable := by
  decide

/-- C4 (amended): for every well-formed view — string cells non-empty
and not tokens the reader re-types (numeric, NA, boolean or infinity
spellings; the quoting layer transports delimiters, quotes and line
breaks verbatim), floats with at least one digit after the point,
column names non-empty and distinct — re-parsing the output of
`to_serialized_table` reproduces the view exactly: same column names
and order, same rows, and the same typed values (integer cells stay
integers, float cells stay floats). -/
theorem to_serialized_table_roundtrip (t : CsvTable) (h : wf_table t) :
    read_back (to_serialized_table t) = some t :=
  parse_serialize_table h

set_option maxRecDepth 40000 in
/-- Witness for the amended C4 at a concrete one-row view. -/
theorem to_serialized_table_roundtrip_witness :
    read_back (to_serialized_table sampleTable) = some sampleTable :=
  to_serialized_table_roundtrip sampleTable (by decide)

end StudentDashboard
